import Mathlib

/-!
Verification of the Cerebra notes-app persistence layer.

The definitions below are a shallow embedding of the SQLite-backed
repository modules (`folders.ts`, `notes.ts`, `sticky-notes.ts`,
`settings.ts`, `init.ts`, `schema.sql`).  The database is a record of
row lists; each repository function is translated statement by
statement, with SQLite behaviour (LIKE matching, foreign-key
enforcement under `PRAGMA foreign_keys = ON`, `ON DELETE CASCADE`,
`INSERT OR IGNORE`, `ON CONFLICT DO UPDATE`) modelled explicitly.
-/

namespace Cerebra

/-- ASCII case folding: SQLite's LIKE is case-insensitive for the
ASCII range only (upper-case A..Z folds to a..z). -/
def asciiLower (c : Char) : Char :=
  if 'A' ≤ c ∧ c ≤ 'Z' then Char.ofNat (c.toNat + 32) else c

/-- Helper for the `%` wildcard: does the rest of the pattern match
some suffix of the text? -/
def likeStar (f : List Char → Bool) : List Char → Bool
  | [] => f []
  | c :: ts => f (c :: ts) || likeStar f ts

/-- SQLite LIKE matching over character lists: `%` matches any
sequence of characters, `_` matches exactly one character, every
other pattern character matches one text character up to ASCII case
folding.  The whole text must be consumed. -/
def likeM : List Char → List Char → Bool
  | [], t => t.isEmpty
  | p :: ps, t =>
    if p = '%' then likeStar (likeM ps) t
    else
      match t with
      | [] => false
      | c :: ts =>
        if p = '_' then likeM ps ts
        else asciiLower p == asciiLower c && likeM ps ts

/-- `text LIKE pattern` on strings. -/
def sqlLike (pattern text : String) : Bool :=
  likeM pattern.data text.data

/-- Row of the `folders` table. -/
structure Folder where
  id : Nat
  name : String
  parent_id : Option Nat
  created_at : String
  modified_at : String
deriving DecidableEq

/-- Row of the `notes` table. -/
structure Note where
  id : Nat
  title : String
  content : String
  folder_id : Nat
  created_at : String
  modified_at : String
deriving DecidableEq

/-- Row of the `sticky_notes` table. -/
structure StickyNote where
  id : Nat
  title : String
  content : String
  created_at : String
  modified_at : String
deriving DecidableEq

/-- Row of the `settings` table. -/
structure Setting where
  key : String
  value : String
deriving DecidableEq

/-- `CreateFolderInput` from types.ts; `parent_id ?? null` collapses
an omitted and an explicitly null parent at creation time, so a
single `Option` suffices. -/
structure CreateFolderInput where
  name : String
  parent_id : Option Nat
deriving DecidableEq

/-- `UpdateFolderInput` from types.ts.  `parent_id` is a double
option: the outer layer is presence of the field in the input object
(`undefined` when omitted), the inner layer is the JSON null used to
mean "move to root". -/
structure UpdateFolderInput where
  name : Option String
  parent_id : Option (Option Nat)
deriving DecidableEq

/-- `CreateNoteInput` from types.ts (`content` optional). -/
structure CreateNoteInput where
  title : String
  content : Option String
  folder_id : Nat
deriving DecidableEq

/-- `UpdateNoteInput` from types.ts. -/
structure UpdateNoteInput where
  title : Option String
  content : Option String
deriving DecidableEq

/-- `CreateStickyNoteInput` from types.ts (`title` optional,
`content` required). -/
structure CreateStickyNoteInput where
  title : Option String
  content : String
deriving DecidableEq

/-- `UpdateStickyNoteInput` (inlined in sticky-notes.ts as
`{ title?: string; content?: string }`). -/
structure UpdateStickyNoteInput where
  title : Option String
  content : Option String
deriving DecidableEq

/-- Errors raised by the SQLite engine that the repository code lets
escape (the TS functions do not catch them). -/
inductive SqlError where
  | foreignKeyViolation
deriving DecidableEq

/-- The whole backing store: the four tables of schema.sql, the list
of schema objects recorded in `sqlite_master`, and the AUTOINCREMENT
counters of the three rowid tables. -/
structure DB where
  schemaTables : List String
  schemaIndexes : List String
  folders : List Folder
  notes : List Note
  stickyNotes : List StickyNote
  settings : List Setting
  nextFolderId : Nat
  nextNoteId : Nat
  nextStickyId : Nat
deriving DecidableEq

/-- `ORDER BY name ASC` comparison for folders. -/
def folderNameLE (a b : Folder) : Prop := a.name ≤ b.name

/-- `ORDER BY modified_at DESC` comparison for notes. -/
def noteModGE (a b : Note) : Prop := b.modified_at ≤ a.modified_at

/-- `ORDER BY modified_at DESC` comparison for sticky notes. -/
def stickyModGE (a b : StickyNote) : Prop := b.modified_at ≤ a.modified_at

instance : DecidableRel folderNameLE :=
  fun a b => inferInstanceAs (Decidable (a.name ≤ b.name))

instance : DecidableRel noteModGE :=
  fun a b => inferInstanceAs (Decidable (b.modified_at ≤ a.modified_at))

instance : DecidableRel stickyModGE :=
  fun a b => inferInstanceAs (Decidable (b.modified_at ≤ a.modified_at))

instance : IsTotal Folder folderNameLE := ⟨fun a b => le_total a.name b.name⟩

instance : IsTrans Folder folderNameLE :=
  ⟨fun _ _ _ h h' => le_trans h h'⟩

instance : IsTotal Note noteModGE := ⟨fun a b => (le_total b.modified_at a.modified_at)⟩

instance : IsTrans Note noteModGE :=
  ⟨fun _ _ _ h h' => le_trans h' h⟩

instance : IsTotal StickyNote stickyModGE := ⟨fun a b => (le_total b.modified_at a.modified_at)⟩

instance : IsTrans StickyNote stickyModGE :=
  ⟨fun _ _ _ h h' => le_trans h' h⟩

/-- Does a folder row with the given id exist (foreign-key target
check performed by the engine under `PRAGMA foreign_keys = ON`)? -/
def folderExists (db : DB) (fid : Nat) : Bool :=
  db.folders.any (fun f => f.id == fid)

/-- A nullable parent reference is acceptable when it is null or
names an existing folder (`parent_id INTEGER REFERENCES folders(id)`). -/
def parentOk (db : DB) : Option Nat → Bool
  | none => true
  | some p => folderExists db p

/-! ### folders.ts -/

/-- `getAllFolders`: `SELECT * FROM folders ORDER BY name ASC`. -/
def getAllFolders (db : DB) : List Folder :=
  List.insertionSort folderNameLE db.folders

/-- `getFolderById`: `SELECT * FROM folders WHERE id = ?`. -/
def getFolderById (db : DB) (id : Nat) : Option Folder :=
  db.folders.find? (fun f => f.id == id)

/-- `createFolder`: INSERT with `input.parent_id ?? null`, then
re-fetch the fresh row.  The FK on `parent_id` makes the INSERT fail
when a non-null parent does not exist. -/
def createFolder (db : DB) (input : CreateFolderInput) (now : String) :
    Except SqlError (Option Folder × DB) :=
  if parentOk db input.parent_id then
    let f : Folder :=
      { id := db.nextFolderId, name := input.name, parent_id := input.parent_id
        created_at := now, modified_at := now }
    let db' := { db with folders := db.folders ++ [f], nextFolderId := db.nextFolderId + 1 }
    .ok (getFolderById db' f.id, db')
  else .error .foreignKeyViolation

/-- `updateFolder`: read-merge-write.  `input.name ?? existing.name`
keeps the existing name when the field is omitted;
`input.parent_id !== undefined ? input.parent_id : existing.parent_id`
keeps the existing parent only when the field is omitted, so an
explicit null moves the folder to root.  The UPDATE fails on a FK
violation when the new parent does not exist. -/
def updateFolder (db : DB) (id : Nat) (input : UpdateFolderInput) (now : String) :
    Except SqlError (Option Folder × DB) :=
  match getFolderById db id with
  | none => .ok (none, db)
  | some existing =>
    let name := input.name.getD existing.name
    let parent_id :=
      match input.parent_id with
      | some p => p
      | none => existing.parent_id
    if parentOk db parent_id then
      let db' :=
        { db with
            folders := db.folders.map (fun f =>
              if f.id == id then
                { f with name := name, parent_id := parent_id, modified_at := now }
              else f) }
      .ok (getFolderById db' id, db')
    else .error .foreignKeyViolation

/-- The set of folder ids removed by SQLite's `ON DELETE CASCADE`
when the ids in `frontier` are deleted from `fs`: deleting a folder
triggers deletion of every folder whose `parent_id` names it, and so
on (worklist form of the engine's recursive cascade). -/
def cascadeFolderIds : List Folder → List Nat → List Nat
  | _, [] => []
  | fs, r :: rest =>
    let children := (fs.filter (fun f => f.parent_id == some r)).map (fun f => f.id)
    let fs' := fs.filter (fun f => !(f.parent_id == some r))
    r :: cascadeFolderIds fs' (rest ++ children)
termination_by fs frontier => fs.length + frontier.length
decreasing_by
  simp only [List.length_append, List.length_map, List.length_cons]
  have h := (List.filter_append_perm (fun f => f.parent_id == some r) fs).length_eq
  simp only [List.length_append] at h
  omega

/-- `deleteFolder`: `DELETE FROM folders WHERE id = ?`, returning
`result.changes > 0`.  With foreign keys on, the engine cascades the
deletion to descendant folders (`folders.parent_id ... ON DELETE
CASCADE`) and to the notes of every deleted folder
(`notes.folder_id ... ON DELETE CASCADE`). -/
def deleteFolder (db : DB) (id : Nat) : Bool × DB :=
  if db.folders.any (fun f => f.id == id) then
    let del := cascadeFolderIds db.folders [id]
    (true,
      { db with
          folders := db.folders.filter (fun f => !(del.contains f.id)),
          notes := db.notes.filter (fun n => !(del.contains n.folder_id)) })
  else (false, db)

/-! ### notes.ts -/

/-- `getNotesByFolder`: `SELECT * FROM notes WHERE folder_id = ?
ORDER BY modified_at DESC`. -/
def getNotesByFolder (db : DB) (folderId : Nat) : List Note :=
  List.insertionSort noteModGE (db.notes.filter (fun n => n.folder_id == folderId))

/-- `getNoteById`: `SELECT * FROM notes WHERE id = ?`. -/
def getNoteById (db : DB) (id : Nat) : Option Note :=
  db.notes.find? (fun n => n.id == id)

/-- `createNote`: INSERT with `input.content ?? ''`, then re-fetch.
`folder_id INTEGER NOT NULL REFERENCES folders(id)` makes the INSERT
fail when the folder does not exist. -/
def createNote (db : DB) (input : CreateNoteInput) (now : String) :
    Except SqlError (Option Note × DB) :=
  if folderExists db input.folder_id then
    let n : Note :=
      { id := db.nextNoteId, title := input.title, content := input.content.getD ""
        folder_id := input.folder_id, created_at := now, modified_at := now }
    let db' := { db with notes := db.notes ++ [n], nextNoteId := db.nextNoteId + 1 }
    .ok (getNoteById db' n.id, db')
  else .error .foreignKeyViolation

/-- `updateNote`: read-merge-write with `?? existing` for title and
content; `modified_at` is always set to now, `created_at` is not
touched.  Returns undefined when the id does not exist. -/
def updateNote (db : DB) (id : Nat) (input : UpdateNoteInput) (now : String) :
    Option Note × DB :=
  match getNoteById db id with
  | none => (none, db)
  | some existing =>
    let title := input.title.getD existing.title
    let content := input.content.getD existing.content
    let db' :=
      { db with
          notes := db.notes.map (fun n =>
            if n.id == id then
              { n with title := title, content := content, modified_at := now }
            else n) }
    (getNoteById db' id, db')

/-- `deleteNote`: `DELETE FROM notes WHERE id = ?`, returning
`result.changes > 0`. -/
def deleteNote (db : DB) (id : Nat) : Bool × DB :=
  (db.notes.any (fun n => n.id == id),
    { db with notes := db.notes.filter (fun n => !(n.id == id)) })

/-- `searchNotes`: `SELECT * FROM notes WHERE title LIKE ? OR content
LIKE ? ORDER BY modified_at DESC` with the pattern `'%' + query + '%'`
passed for both placeholders. -/
def searchNotes (db : DB) (query : String) : List Note :=
  let pattern := "%" ++ query ++ "%"
  List.insertionSort noteModGE
    (db.notes.filter (fun n => sqlLike pattern n.title || sqlLike pattern n.content))

/-! ### sticky-notes.ts -/

/-- `getAllStickyNotes`: `SELECT * FROM sticky_notes ORDER BY
modified_at DESC`. -/
def getAllStickyNotes (db : DB) : List StickyNote :=
  List.insertionSort stickyModGE db.stickyNotes

/-- `getStickyNoteById`: `SELECT * FROM sticky_notes WHERE id = ?`. -/
def getStickyNoteById (db : DB) (id : Nat) : Option StickyNote :=
  db.stickyNotes.find? (fun s => s.id == id)

/-- `createStickyNote`: INSERT with `input.title ?? 'Quick Note'`
(the default is applied in the repository, so the stored title is
always the supplied value), then re-fetch. -/
def createStickyNote (db : DB) (input : CreateStickyNoteInput) (now : String) :
    Option StickyNote × DB :=
  let s : StickyNote :=
    { id := db.nextStickyId, title := input.title.getD "Quick Note"
      content := input.content, created_at := now, modified_at := now }
  let db' := { db with stickyNotes := db.stickyNotes ++ [s], nextStickyId := db.nextStickyId + 1 }
  (getStickyNoteById db' s.id, db')

/-- `updateStickyNote`: same read-merge-write shape as `updateNote`. -/
def updateStickyNote (db : DB) (id : Nat) (input : UpdateStickyNoteInput) (now : String) :
    Option StickyNote × DB :=
  match getStickyNoteById db id with
  | none => (none, db)
  | some existing =>
    let title := input.title.getD existing.title
    let content := input.content.getD existing.content
    let db' :=
      { db with
          stickyNotes := db.stickyNotes.map (fun s =>
            if s.id == id then
              { s with title := title, content := content, modified_at := now }
            else s) }
    (getStickyNoteById db' id, db')

/-- `deleteStickyNote`: `DELETE FROM sticky_notes WHERE id = ?`,
returning `result.changes > 0`. -/
def deleteStickyNote (db : DB) (id : Nat) : Bool × DB :=
  (db.stickyNotes.any (fun s => s.id == id),
    { db with stickyNotes := db.stickyNotes.filter (fun s => !(s.id == id)) })

/-! ### settings.ts -/

/-- `getSetting`: `SELECT value FROM settings WHERE key = ?`; null
(here `none`) when the key has no row. -/
def getSetting (db : DB) (key : String) : Option String :=
  (db.settings.find? (fun s => s.key == key)).map (fun s => s.value)

/-- `setSetting`: `INSERT INTO settings (key, value) VALUES (?, ?)
ON CONFLICT(key) DO UPDATE SET value = excluded.value` — update the
row in place when the key exists, insert a fresh row otherwise. -/
def setSetting (db : DB) (key value : String) : DB :=
  if db.settings.any (fun s => s.key == key) then
    { db with
        settings := db.settings.map (fun s =>
          if s.key == key then { s with value := value } else s) }
  else
    { db with settings := db.settings ++ [⟨key, value⟩] }

/-- `getAllSettings` row list (the TS function folds it into a
record; the row list carries the same information). -/
def getAllSettings (db : DB) : List Setting :=
  db.settings

/-! ### init.ts / schema.sql -/

/-- `CREATE TABLE IF NOT EXISTS` / `CREATE INDEX IF NOT EXISTS` on
the list of existing schema objects. -/
def createIfNotExists (objs : List String) (name : String) : List String :=
  if objs.contains name then objs else objs ++ [name]

/-- The four tables of schema.sql, in file order. -/
def schemaTableNames : List String :=
  ["folders", "notes", "sticky_notes", "settings"]

/-- The four indexes of schema.sql, in file order. -/
def schemaIndexNames : List String :=
  ["idx_folders_parent_id", "idx_notes_folder_id", "idx_notes_modified_at", "idx_notes_title"]

/-- `createTables`: `db.exec(schema)` — run every CREATE statement of
schema.sql, each guarded by IF NOT EXISTS. -/
def createTables (db : DB) : DB :=
  { db with
      schemaTables := schemaTableNames.foldl createIfNotExists db.schemaTables,
      schemaIndexes := schemaIndexNames.foldl createIfNotExists db.schemaIndexes }

/-- `INSERT OR IGNORE INTO settings (key, value) VALUES (?, ?)`:
insert only when the key has no row yet. -/
def insertOrIgnoreSetting (settings : List Setting) (kv : String × String) : List Setting :=
  if settings.any (fun s => s.key == kv.1) then settings
  else settings ++ [⟨kv.1, kv.2⟩]

/-- The five default settings seeded by init.ts. -/
def defaultSettings : List (String × String) :=
  [("appName", "CEREBRA"), ("confirmDelete", "true"), ("fontSize", "medium"),
   ("animations", "true"), ("theme", "light")]

/-- `initializeDefaultSettings`: loop the `INSERT OR IGNORE`
statement over the five defaults. -/
def initializeDefaultSettings (db : DB) : DB :=
  { db with settings := defaultSettings.foldl insertOrIgnoreSetting db.settings }

/-- `isDatabaseInitialized`: `SELECT name FROM sqlite_master WHERE
type='table' AND name='folders'` returned a row? -/
def isDatabaseInitialized (db : DB) : Bool :=
  db.schemaTables.contains "folders"

/-- `initializeDatabase` (init.ts): skip everything when the folders
table already exists, otherwise run schema.sql and seed the default
settings. -/
def initializeDatabase (db : DB) : DB :=
  if isDatabaseInitialized db then db
  else initializeDefaultSettings (createTables db)

/-- N calls of `initializeDatabase` in sequence. -/
def initIter : Nat → DB → DB
  | 0, db => db
  | n + 1, db => initIter n (initializeDatabase db)

/-! ### Claim-side notions -/

/-- `Desc fs root x`: folder id `x` is `root` itself or transitively
reachable from `root` via `parent_id` chains inside the row list `fs`
(the spec's "descendant" relation). -/
inductive Desc (fs : List Folder) (root : Nat) : Nat → Prop
  | refl : Desc fs root root
  | step (f : Folder) (p : Nat) (hf : f ∈ fs) (hp : f.parent_id = some p)
      (hd : Desc fs root p) : Desc fs root f.id

/-- Executable check that `q` is a leading block of `t`. -/
def listPrefixB : List Char → List Char → Bool
  | [], _ => true
  | _ :: _, [] => false
  | a :: as, b :: bs => a == b && listPrefixB as bs

/-- Executable check that `q` occurs as a contiguous block of `t`. -/
def listInfixB (q : List Char) : List Char → Bool
  | [] => listPrefixB q []
  | b :: bs => listPrefixB q (b :: bs) || listInfixB q bs

/-- The spec's matching notion for search: the query is a substring
of the field, case-insensitively for ASCII. -/
def ciContains (q s : String) : Prop :=
  ∃ a b, s.data.map asciiLower = a ++ q.data.map asciiLower ++ b

/-- A query string free of the LIKE wildcard characters. -/
def wildcardFree (q : String) : Prop :=
  ∀ c, c ∈ q.data → c ≠ '%' ∧ c ≠ '_'

/-- Example store with a root folder, a child folder, and a note in
the child folder. -/
def dbW1 : DB :=
  { schemaTables := schemaTableNames, schemaIndexes := schemaIndexNames
    folders := [⟨1, "root", none, "t1", "t1"⟩, ⟨2, "child", some 1, "t1", "t1"⟩]
    notes := [⟨1, "n", "c", 2, "t1", "t1"⟩], stickyNotes := [], settings := []
    nextFolderId := 3, nextNoteId := 2, nextStickyId := 1 }

/-! ## Lemmas about the cascade -/

theorem mem_cascade_of_mem_frontier (fs : List Folder) (frontier : List Nat) (r : Nat)
    (h : r ∈ frontier) : r ∈ cascadeFolderIds fs frontier := by
  induction fs, frontier using cascadeFolderIds.induct with
  | case1 fs => cases h
  | case2 fs q rest children fs' ih =>
    rw [cascadeFolderIds]
    rcases List.mem_cons.mp h with rfl | h'
    · exact List.mem_cons_self _ _
    · exact List.mem_cons_of_mem _ (ih (List.mem_append_left _ h'))

theorem cascade_mem_child (f : Folder) (p : Nat) (hp : f.parent_id = some p)
    (fs : List Folder) (frontier : List Nat) :
    f ∈ fs → p ∈ cascadeFolderIds fs frontier → f.id ∈ cascadeFolderIds fs frontier := by
  induction fs, frontier using cascadeFolderIds.induct with
  | case1 fs =>
    intro _ hmem
    rw [cascadeFolderIds] at hmem
    cases hmem
  | case2 fs q rest children fs' ih =>
    intro hf hmem
    rw [cascadeFolderIds] at hmem ⊢
    by_cases hpq : p = q
    · subst hpq
      have hchild : f.id ∈ (fs.filter (fun g => g.parent_id == some p)).map (fun g => g.id) :=
        List.mem_map_of_mem _ (List.mem_filter.mpr ⟨hf, by simp [hp]⟩)
      exact List.mem_cons_of_mem _
        (mem_cascade_of_mem_frontier _ _ _ (List.mem_append_right _ hchild))
    · rcases List.mem_cons.mp hmem with rfl | htail
      · exact absurd rfl hpq
      · have hf' : f ∈ fs.filter (fun g => !(g.parent_id == some q)) :=
          List.mem_filter.mpr ⟨hf, by simp [hp, hpq]⟩
        exact List.mem_cons_of_mem _ (ih hf' htail)

theorem desc_mem_cascade (fs : List Folder) (r x : Nat) (h : Desc fs r x) :
    x ∈ cascadeFolderIds fs [r] := by
  induction h with
  | refl => exact mem_cascade_of_mem_frontier _ _ _ (List.mem_singleton.mpr rfl)
  | step f p hf hp _ ih => exact cascade_mem_child f p hp fs [r] hf ih

/-- C1: after `deleteFolder F` succeeds, `F`, every folder
transitively reachable from `F` via `parent_id` chains, and every
note owned by any of those folders are absent from `getAllFolders`,
`getFolderById`, `getNotesByFolder`, `getNoteById` and
`searchNotes`. -/
theorem deleteFolder_cascade_absence (db db' : DB) (F x : Nat)
    (hdel : deleteFolder db F = (true, db'))
    (hx : Desc db.folders F x) :
    (∀ f, f ∈ getAllFolders db' → f.id ≠ x) ∧
    getFolderById db' x = none ∧
    (∀ g n, n ∈ getNotesByFolder db' g → n.folder_id ≠ x) ∧
    (∀ i n, getNoteById db' i = some n → n.folder_id ≠ x) ∧
    (∀ q n, n ∈ searchNotes db' q → n.folder_id ≠ x) := by
  have hxdel : x ∈ cascadeFolderIds db.folders [F] := desc_mem_cascade _ _ _ hx
  unfold deleteFolder at hdel
  by_cases hex : db.folders.any (fun f => f.id == F)
  · rw [if_pos hex] at hdel
    obtain ⟨-, rfl⟩ := Prod.mk.injEq .. |>.mp hdel.symm
    have hfold : ∀ f : Folder,
        f ∈ db.folders.filter (fun f => !((cascadeFolderIds db.folders [F]).contains f.id)) →
        f.id ≠ x := by
      intro f hf
      have := (List.mem_filter.mp hf).2
      simp at this
      intro hfx
      exact this (hfx ▸ hxdel)
    have hnote : ∀ n : Note,
        n ∈ db.notes.filter (fun n => !((cascadeFolderIds db.folders [F]).contains n.folder_id)) →
        n.folder_id ≠ x := by
      intro n hn
      have := (List.mem_filter.mp hn).2
      simp at this
      intro hfx
      exact this (hfx ▸ hxdel)
    refine ⟨?_, ?_, ?_, ?_, ?_⟩
    · intro f hf
      exact hfold f ((List.perm_insertionSort folderNameLE _).mem_iff.mp hf)
    · refine List.find?_eq_none.mpr ?_
      intro f hf
      simpa using hfold f hf
    · intro g n hn
      have := (List.perm_insertionSort noteModGE _).mem_iff.mp hn
      exact hnote n (List.mem_filter.mp this).1
    · intro i n hn
      exact hnote n (List.mem_of_find?_eq_some hn)
    · intro q n hn
      have := (List.perm_insertionSort noteModGE _).mem_iff.mp hn
      exact hnote n (List.mem_filter.mp this).1
  · rw [if_neg hex] at hdel
    simp at hdel

theorem deleteFolder_cascade_absence_witness :
    getFolderById (deleteFolder dbW1 1).2 2 = none :=
  (deleteFolder_cascade_absence dbW1 (deleteFolder dbW1 1).2 1 2 (Prod.ext rfl rfl)
    (Desc.step ⟨2, "child", some 1, "t1", "t1"⟩ 1 (by decide) rfl Desc.refl)).2.1

/-! ## Lemmas about find? after UPDATE / INSERT -/

theorem find?_map_update {α : Type} {κ : Type} [DecidableEq κ] (key : α → κ) (g : α → α)
    (hg : ∀ x, key (g x) = key x) (k : κ) (l : List α) (ex : α)
    (h : l.find? (fun x => key x == k) = some ex) :
    (l.map (fun x => if key x == k then g x else x)).find? (fun x => key x == k)
      = some (g ex) := by
  induction l with
  | nil => cases h
  | cons a l ih =>
    simp only [List.map_cons]
    by_cases ha : (key a == k) = true
    · rw [@List.find?_cons_of_pos _ (fun x => key x == k) a l ha] at h
      injection h with h
      subst h
      rw [if_pos ha]
      exact @List.find?_cons_of_pos _ (fun x => key x == k) (g a) _
        (show (key (g a) == k) = true by rw [hg a]; exact ha)
    · rw [@List.find?_cons_of_neg _ (fun x => key x == k) a l ha] at h
      rw [if_neg ha]
      rw [@List.find?_cons_of_neg _ (fun x => key x == k) a _ ha]
      exact ih h

theorem find?_append_fresh {α : Type} (p : α → Bool) (l : List α) (x : α)
    (hl : ∀ y ∈ l, ¬ p y = true) (hx : p x = true) :
    (l ++ [x]).find? p = some x := by
  induction l with
  | nil => simp [List.find?, hx]
  | cons a l ih =>
    rw [List.cons_append, List.find?_cons_of_neg _ (hl a (List.mem_cons_self a l))]
    exact ih (fun y hy => hl y (List.mem_cons_of_mem _ hy))

theorem getFolderById_after_update (db : DB) (fid : Nat) (ex : Folder)
    (nm : String) (pid : Option Nat) (now : String)
    (hex : getFolderById db fid = some ex) :
    getFolderById
      { db with
          folders := db.folders.map (fun f =>
            if f.id == fid then { f with name := nm, parent_id := pid, modified_at := now }
            else f) }
      fid = some { ex with name := nm, parent_id := pid, modified_at := now } := by
  unfold getFolderById at hex ⊢
  exact find?_map_update (fun f => f.id)
    (fun f => { f with name := nm, parent_id := pid, modified_at := now })
    (fun _ => rfl) fid db.folders ex hex

theorem getNoteById_after_update (db : DB) (id : Nat) (ex : Note)
    (ti co now : String) (hex : getNoteById db id = some ex) :
    getNoteById
      { db with
          notes := db.notes.map (fun n =>
            if n.id == id then { n with title := ti, content := co, modified_at := now }
            else n) }
      id = some { ex with title := ti, content := co, modified_at := now } := by
  unfold getNoteById at hex ⊢
  exact find?_map_update (fun n => n.id)
    (fun n => { n with title := ti, content := co, modified_at := now })
    (fun _ => rfl) id db.notes ex hex

theorem getStickyNoteById_after_update (db : DB) (id : Nat) (ex : StickyNote)
    (ti co now : String) (hex : getStickyNoteById db id = some ex) :
    getStickyNoteById
      { db with
          stickyNotes := db.stickyNotes.map (fun s =>
            if s.id == id then { s with title := ti, content := co, modified_at := now }
            else s) }
      id = some { ex with title := ti, content := co, modified_at := now } := by
  unfold getStickyNoteById at hex ⊢
  exact find?_map_update (fun s => s.id)
    (fun s => { s with title := ti, content := co, modified_at := now })
    (fun _ => rfl) id db.stickyNotes ex hex

/-- The fields of the row returned by a successful `updateFolder`. -/
theorem updateFolder_ok_fields (db : DB) (fid : Nat) (input : UpdateFolderInput)
    (now : String) (ex : Folder) (db' : DB) (f' : Folder)
    (hex : getFolderById db fid = some ex)
    (h : updateFolder db fid input now = .ok (some f', db')) :
    f'.name = input.name.getD ex.name ∧
    f'.parent_id = (match input.parent_id with | some p => p | none => ex.parent_id) ∧
    f'.created_at = ex.created_at ∧ f'.modified_at = now := by
  unfold updateFolder at h
  rw [hex] at h
  simp only [] at h
  split at h
  · rw [getFolderById_after_update db fid ex _ _ now hex] at h
    simp only [Except.ok.injEq, Prod.mk.injEq, Option.some.injEq] at h
    obtain ⟨⟨rfl, -⟩, -⟩ := h
    exact ⟨rfl, rfl, rfl, rfl⟩
  · cases h

/-- The fields of the row returned by a successful `updateNote`. -/
theorem updateNote_some_fields (db : DB) (id : Nat) (input : UpdateNoteInput)
    (now : String) (ex : Note) (db' : DB) (n' : Note)
    (hex : getNoteById db id = some ex)
    (h : updateNote db id input now = (some n', db')) :
    n'.title = input.title.getD ex.title ∧
    n'.content = input.content.getD ex.content ∧
    n'.folder_id = ex.folder_id ∧
    n'.created_at = ex.created_at ∧ n'.modified_at = now := by
  unfold updateNote at h
  rw [hex] at h
  simp only [] at h
  rw [getNoteById_after_update db id ex _ _ now hex] at h
  simp only [Prod.mk.injEq, Option.some.injEq] at h
  obtain ⟨rfl, -⟩ := h
  exact ⟨rfl, rfl, rfl, rfl, rfl⟩

/-- The fields of the row returned by a successful `updateStickyNote`. -/
theorem updateStickyNote_some_fields (db : DB) (id : Nat) (input : UpdateStickyNoteInput)
    (now : String) (ex : StickyNote) (db' : DB) (s' : StickyNote)
    (hex : getStickyNoteById db id = some ex)
    (h : updateStickyNote db id input now = (some s', db')) :
    s'.title = input.title.getD ex.title ∧
    s'.content = input.content.getD ex.content ∧
    s'.created_at = ex.created_at ∧ s'.modified_at = now := by
  unfold updateStickyNote at h
  rw [hex] at h
  simp only [] at h
  rw [getStickyNoteById_after_update db id ex _ _ now hex] at h
  simp only [Prod.mk.injEq, Option.some.injEq] at h
  obtain ⟨rfl, -⟩ := h
  exact ⟨rfl, rfl, rfl, rfl⟩

/-- Example store for the folder-update claim: folder 1 currently
sits under folder 2. -/
def dbC2 : DB :=
  { schemaTables := [], schemaIndexes := []
    folders := [⟨1, "a", some 2, "t1", "t1"⟩, ⟨2, "b", none, "t1", "t1"⟩]
    notes := [], stickyNotes := [], settings := []
    nextFolderId := 3, nextNoteId := 1, nextStickyId := 1 }

/-- C2: `updateFolder` distinguishes the three parent-reference
input cases — field omitted keeps the current parent, explicit null
moves the folder to root, explicit number `q` reparents under `q` —
and independently an omitted name keeps the existing name while a
supplied name replaces it. -/
theorem updateFolder_merge_semantics (db : DB) (fid : Nat) (ex : Folder) (now : String)
    (hex : getFolderById db fid = some ex) :
    (∀ nm db' f', updateFolder db fid ⟨nm, none⟩ now = .ok (some f', db') →
      f'.parent_id = ex.parent_id) ∧
    (∀ nm db' f', updateFolder db fid ⟨nm, some none⟩ now = .ok (some f', db') →
      f'.parent_id = none) ∧
    (∀ nm q db' f', updateFolder db fid ⟨nm, some (some q)⟩ now = .ok (some f', db') →
      f'.parent_id = some q) ∧
    (∀ pin db' f', updateFolder db fid ⟨none, pin⟩ now = .ok (some f', db') →
      f'.name = ex.name) ∧
    (∀ s pin db' f', updateFolder db fid ⟨some s, pin⟩ now = .ok (some f', db') →
      f'.name = s) := by
  refine ⟨?_, ?_, ?_, ?_, ?_⟩
  · intro nm db' f' h
    exact (updateFolder_ok_fields db fid _ now ex db' f' hex h).2.1
  · intro nm db' f' h
    exact (updateFolder_ok_fields db fid _ now ex db' f' hex h).2.1
  · intro nm q db' f' h
    exact (updateFolder_ok_fields db fid _ now ex db' f' hex h).2.1
  · intro pin db' f' h
    exact (updateFolder_ok_fields db fid _ now ex db' f' hex h).1
  · intro s pin db' f' h
    exact (updateFolder_ok_fields db fid _ now ex db' f' hex h).1

theorem updateFolder_merge_semantics_witness :
    (Folder.mk 1 "a" none "t1" "t2").parent_id = none :=
  (updateFolder_merge_semantics dbC2 1 ⟨1, "a", some 2, "t1", "t1"⟩ "t2" rfl).2.1 none
    { dbC2 with folders := [⟨1, "a", none, "t1", "t2"⟩, ⟨2, "b", none, "t1", "t1"⟩] }
    ⟨1, "a", none, "t1", "t2"⟩ rfl

/-! ## Shape of successful INSERTs -/

theorem createNote_ok (db : DB) (input : CreateNoteInput) (now : String)
    (hfk : folderExists db input.folder_id = true)
    (hfresh : ∀ n ∈ db.notes, n.id ≠ db.nextNoteId) :
    createNote db input now =
      .ok (some { id := db.nextNoteId, title := input.title, content := input.content.getD ""
                  folder_id := input.folder_id, created_at := now, modified_at := now },
        { db with
            notes := db.notes ++
              [{ id := db.nextNoteId, title := input.title, content := input.content.getD ""
                 folder_id := input.folder_id, created_at := now, modified_at := now }]
            nextNoteId := db.nextNoteId + 1 }) := by
  unfold createNote
  rw [if_pos hfk]
  simp only []
  congr 1
  unfold getNoteById
  simp only []
  rw [find?_append_fresh _ db.notes _ (fun y hy => by simpa using hfresh y hy) (by simp)]

theorem createFolder_ok (db : DB) (input : CreateFolderInput) (now : String)
    (hfk : parentOk db input.parent_id = true)
    (hfresh : ∀ f ∈ db.folders, f.id ≠ db.nextFolderId) :
    createFolder db input now =
      .ok (some { id := db.nextFolderId, name := input.name, parent_id := input.parent_id
                  created_at := now, modified_at := now },
        { db with
            folders := db.folders ++
              [{ id := db.nextFolderId, name := input.name, parent_id := input.parent_id
                 created_at := now, modified_at := now }]
            nextFolderId := db.nextFolderId + 1 }) := by
  unfold createFolder
  rw [if_pos hfk]
  simp only []
  congr 1
  unfold getFolderById
  simp only []
  rw [find?_append_fresh _ db.folders _ (fun y hy => by simpa using hfresh y hy) (by simp)]

theorem createStickyNote_eq (db : DB) (input : CreateStickyNoteInput) (now : String)
    (hfresh : ∀ s ∈ db.stickyNotes, s.id ≠ db.nextStickyId) :
    createStickyNote db input now =
      (some { id := db.nextStickyId, title := input.title.getD "Quick Note"
              content := input.content, created_at := now, modified_at := now },
        { db with
            stickyNotes := db.stickyNotes ++
              [{ id := db.nextStickyId, title := input.title.getD "Quick Note"
                 content := input.content, created_at := now, modified_at := now }]
            nextStickyId := db.nextStickyId + 1 }) := by
  unfold createStickyNote
  simp only []
  congr 1
  unfold getStickyNoteById
  simp only []
  rw [find?_append_fresh _ db.stickyNotes _ (fun y hy => by simpa using hfresh y hy) (by simp)]

/-- The empty freshly-created store. -/
def dbEmpty : DB :=
  { schemaTables := [], schemaIndexes := [], folders := [], notes := []
    stickyNotes := [], settings := [], nextFolderId := 1, nextNoteId := 1, nextStickyId := 1 }

/-- C4: `createNote` fails with a foreign-key error whenever the
requested `folder_id` names no existing folder, and a successful
`createNote` preserves the invariant that every stored note
references an existing folder. -/
theorem createNote_fk_enforcement (db : DB) (input : CreateNoteInput) (now : String) :
    ((∀ f ∈ db.folders, f.id ≠ input.folder_id) →
      createNote db input now = .error .foreignKeyViolation) ∧
    (∀ n' db', createNote db input now = .ok (n', db') →
      (∀ n ∈ db.notes, folderExists db n.folder_id = true) →
      ∀ n ∈ db'.notes, folderExists db' n.folder_id = true) := by
  constructor
  · intro hno
    have hfk : folderExists db input.folder_id = false := by
      unfold folderExists
      exact List.any_eq_false.mpr (fun f hf => by simpa using hno f hf)
    unfold createNote
    rw [if_neg (by simp [hfk])]
  · intro n' db' h hinv n hn
    by_cases hfk : folderExists db input.folder_id = true
    · unfold createNote at h
      rw [if_pos hfk] at h
      simp only [Except.ok.injEq, Prod.mk.injEq] at h
      obtain ⟨-, rfl⟩ := h
      simp only [] at hn
      rcases List.mem_append.mp hn with hold | hnew
      · exact hinv n hold
      · rw [List.mem_singleton.mp hnew]
        exact hfk
    · unfold createNote at h
      rw [if_neg hfk] at h
      cases h

theorem createNote_fk_enforcement_witness :
    createNote dbEmpty ⟨"t", none, 5⟩ "t1" = .error .foreignKeyViolation :=
  (createNote_fk_enforcement dbEmpty ⟨"t", none, 5⟩ "t1").1
    (fun f hf => absurd hf (List.not_mem_nil f))

/-- C5: every successful update preserves `created_at` and stamps
`modified_at` with the call's current time (whatever values were
supplied), creation stamps both timestamps with the same time, and
thus `modified_at` is at least `created_at` whenever the clock did
not move backwards since creation. -/
theorem timestamp_discipline (db : DB) (now : String) :
    (∀ fid input ex db' f', getFolderById db fid = some ex →
      updateFolder db fid input now = .ok (some f', db') →
      f'.created_at = ex.created_at ∧ f'.modified_at = now ∧
      (ex.created_at ≤ now → f'.created_at ≤ f'.modified_at)) ∧
    (∀ id input ex db' n', getNoteById db id = some ex →
      updateNote db id input now = (some n', db') →
      n'.created_at = ex.created_at ∧ n'.modified_at = now ∧
      (ex.created_at ≤ now → n'.created_at ≤ n'.modified_at)) ∧
    (∀ id input ex db' s', getStickyNoteById db id = some ex →
      updateStickyNote db id input now = (some s', db') →
      s'.created_at = ex.created_at ∧ s'.modified_at = now ∧
      (ex.created_at ≤ now → s'.created_at ≤ s'.modified_at)) ∧
    (∀ input f' db', (∀ f ∈ db.folders, f.id ≠ db.nextFolderId) →
      createFolder db input now = .ok (some f', db') →
      f'.created_at = now ∧ f'.modified_at = now) ∧
    (∀ input n' db', (∀ n ∈ db.notes, n.id ≠ db.nextNoteId) →
      createNote db input now = .ok (some n', db') →
      n'.created_at = now ∧ n'.modified_at = now) ∧
    (∀ input s' db', (∀ s ∈ db.stickyNotes, s.id ≠ db.nextStickyId) →
      createStickyNote db input now = (some s', db') →
      s'.created_at = now ∧ s'.modified_at = now) := by
  refine ⟨?_, ?_, ?_, ?_, ?_, ?_⟩
  · intro fid input ex db' f' hex h
    obtain ⟨-, -, hc, hm⟩ := updateFolder_ok_fields db fid input now ex db' f' hex h
    exact ⟨hc, hm, fun hle => by rw [hc, hm]; exact hle⟩
  · intro id input ex db' n' hex h
    obtain ⟨-, -, -, hc, hm⟩ := updateNote_some_fields db id input now ex db' n' hex h
    exact ⟨hc, hm, fun hle => by rw [hc, hm]; exact hle⟩
  · intro id input ex db' s' hex h
    obtain ⟨-, -, hc, hm⟩ := updateStickyNote_some_fields db id input now ex db' s' hex h
    exact ⟨hc, hm, fun hle => by rw [hc, hm]; exact hle⟩
  · intro input f' db' hfresh h
    by_cases hfk : parentOk db input.parent_id = true
    · rw [createFolder_ok db input now hfk hfresh] at h
      simp only [Except.ok.injEq, Prod.mk.injEq, Option.some.injEq] at h
      obtain ⟨⟨rfl, -⟩, -⟩ := h
      exact ⟨rfl, rfl⟩
    · unfold createFolder at h
      rw [if_neg hfk] at h
      cases h
  · intro input n' db' hfresh h
    by_cases hfk : folderExists db input.folder_id = true
    · rw [createNote_ok db input now hfk hfresh] at h
      simp only [Except.ok.injEq, Prod.mk.injEq, Option.some.injEq] at h
      obtain ⟨⟨rfl, -⟩, -⟩ := h
      exact ⟨rfl, rfl⟩
    · unfold createNote at h
      rw [if_neg hfk] at h
      cases h
  · intro input s' db' hfresh h
    rw [createStickyNote_eq db input now hfresh] at h
    simp only [Prod.mk.injEq, Option.some.injEq] at h
    obtain ⟨rfl, -⟩ := h
    exact ⟨rfl, rfl⟩

theorem timestamp_discipline_witness :
    (Note.mk 1 "n" "c2" 2 "t1" "t2").created_at = "t1" ∧
    (Note.mk 1 "n" "c2" 2 "t1" "t2").modified_at = "t2" ∧
    ("t1" ≤ "t2" → (Note.mk 1 "n" "c2" 2 "t1" "t2").created_at ≤
      (Note.mk 1 "n" "c2" 2 "t1" "t2").modified_at) :=
  (timestamp_discipline dbW1 "t2").2.1 1 ⟨none, some "c2"⟩ ⟨1, "n", "c", 2, "t1", "t1"⟩
    { dbW1 with notes := [⟨1, "n", "c2", 2, "t1", "t2"⟩] } ⟨1, "n", "c2", 2, "t1", "t2"⟩
    rfl rfl

/-- C8: updates of a nonexistent id return the not-found sentinel
with the store untouched, deletes return `true` exactly when a row
with the id existed, and after any delete no row with that id
remains. -/
theorem notfound_sentinels (db : DB) (id : Nat) (now : String) :
    (getFolderById db id = none →
      ∀ input, updateFolder db id input now = .ok (none, db)) ∧
    (getNoteById db id = none →
      ∀ input, updateNote db id input now = (none, db)) ∧
    (getStickyNoteById db id = none →
      ∀ input, updateStickyNote db id input now = (none, db)) ∧
    ((deleteFolder db id).1 = true ↔ ∃ f ∈ db.folders, f.id = id) ∧
    (∀ f ∈ (deleteFolder db id).2.folders, f.id ≠ id) ∧
    ((deleteNote db id).1 = true ↔ ∃ n ∈ db.notes, n.id = id) ∧
    (∀ n ∈ (deleteNote db id).2.notes, n.id ≠ id) ∧
    ((deleteStickyNote db id).1 = true ↔ ∃ s ∈ db.stickyNotes, s.id = id) ∧
    (∀ s ∈ (deleteStickyNote db id).2.stickyNotes, s.id ≠ id) := by
  refine ⟨?_, ?_, ?_, ?_, ?_, ?_, ?_, ?_, ?_⟩
  · intro h input
    simp [updateFolder, h]
  · intro h input
    simp [updateNote, h]
  · intro h input
    simp [updateStickyNote, h]
  · unfold deleteFolder
    by_cases hc : db.folders.any (fun f => f.id == id) = true
    · rw [if_pos hc]
      simpa using List.any_eq_true.mp hc
    · rw [if_neg hc]
      simp only [Bool.not_eq_true] at hc
      simpa using List.any_eq_false.mp hc
  · intro f hf
    unfold deleteFolder at hf
    by_cases hc : db.folders.any (fun f => f.id == id) = true
    · rw [if_pos hc] at hf
      have h2 := (List.mem_filter.mp hf).2
      simp at h2
      intro hfid
      exact h2 (hfid ▸ mem_cascade_of_mem_frontier db.folders [id] id (List.mem_singleton.mpr rfl))
    · rw [if_neg hc] at hf
      simp only [Bool.not_eq_true] at hc
      simpa using List.any_eq_false.mp hc f hf
  · unfold deleteNote
    simp [List.any_eq_true]
  · intro n hn
    unfold deleteNote at hn
    simpa using (List.mem_filter.mp hn).2
  · unfold deleteStickyNote
    simp [List.any_eq_true]
  · intro s hs
    unfold deleteStickyNote at hs
    simpa using (List.mem_filter.mp hs).2

theorem notfound_sentinels_witness :
    updateNote dbEmpty 7 ⟨some "x", none⟩ "t9" = (none, dbEmpty) :=
  (notfound_sentinels dbEmpty 7 "t9").2.1 rfl ⟨some "x", none⟩

/-- C9: `createStickyNote` itself fills in the literal "Quick Note"
when the title field is omitted, stores a supplied title verbatim,
and stores the (required) content as given. -/
theorem createStickyNote_default_title (db : DB) (input : CreateStickyNoteInput) (now : String)
    (hfresh : ∀ s ∈ db.stickyNotes, s.id ≠ db.nextStickyId) :
    ∃ s db', createStickyNote db input now = (some s, db') ∧
      (input.title = none → s.title = "Quick Note") ∧
      (∀ t, input.title = some t → s.title = t) ∧
      s.content = input.content ∧ s ∈ db'.stickyNotes := by
  refine ⟨_, _, createStickyNote_eq db input now hfresh, ?_, ?_, rfl, ?_⟩
  · intro h
    simp [h]
  · intro t h
    simp [h]
  · simp

theorem createStickyNote_default_title_witness :
    ∃ s db', createStickyNote dbEmpty ⟨none, "Buy milk"⟩ "t1" = (some s, db') ∧
      ((none : Option String) = none → s.title = "Quick Note") ∧
      (∀ t, (none : Option String) = some t → s.title = t) ∧
      s.content = "Buy milk" ∧ s ∈ db'.stickyNotes :=
  createStickyNote_default_title dbEmpty ⟨none, "Buy milk"⟩ "t1"
    (fun s hs => absurd hs (List.not_mem_nil s))

/-! ## Settings upsert lemmas -/

theorem find?_set_map (l : List Setting) (k v : String) :
    (l.map (fun s => if s.key == k then { s with value := v } else s)).find?
      (fun s => s.key == k)
      = (l.find? (fun s => s.key == k)).map (fun s => { s with value := v }) := by
  induction l with
  | nil => rfl
  | cons a l ih =>
    rw [List.map_cons]
    by_cases ha : (a.key == k) = true
    · rw [if_pos ha]
      rw [@List.find?_cons_of_pos _ (fun s => s.key == k) a l ha]
      rw [@List.find?_cons_of_pos _ (fun s => s.key == k) ({ a with value := v })
        (List.map (fun s => if s.key == k then { s with value := v } else s) l) ha]
      rfl
    · rw [if_neg ha]
      rw [@List.find?_cons_of_neg _ (fun s => s.key == k) a l ha]
      rw [@List.find?_cons_of_neg _ (fun s => s.key == k) a
        (List.map (fun s => if s.key == k then { s with value := v } else s) l) ha]
      exact ih

theorem getSetting_set_self (db : DB) (k v : String) :
    getSetting (setSetting db k v) k = some v := by
  unfold getSetting setSetting
  by_cases hc : db.settings.any (fun s => s.key == k) = true
  · rw [if_pos hc]
    dsimp only
    rw [find?_set_map]
    obtain ⟨s0, hs0, hps0⟩ := List.any_eq_true.mp hc
    have hsome : (db.settings.find? (fun s => s.key == k)).isSome :=
      List.find?_isSome.mpr ⟨s0, hs0, hps0⟩
    obtain ⟨s1, hfind⟩ := Option.isSome_iff_exists.mp hsome
    rw [hfind]
    rfl
  · rw [if_neg hc]
    dsimp only
    rw [find?_append_fresh _ db.settings _ ?_ (by simp)]
    · rfl
    · intro y hy
      simp only [Bool.not_eq_true] at hc
      exact List.any_eq_false.mp hc y hy

theorem setSetting_count_one (db : DB) (k v : String)
    (hnd : (db.settings.map (fun s => s.key)).Nodup) :
    ((setSetting db k v).settings.filter (fun s => s.key == k)).length = 1 := by
  unfold setSetting
  by_cases hc : db.settings.any (fun s => s.key == k) = true
  · rw [if_pos hc]
    dsimp only
    rw [List.filter_map]
    rw [List.length_map]
    have hfc : (db.settings.filter
        ((fun s : Setting => s.key == k) ∘
          (fun s => if s.key == k then { s with value := v } else s))) =
        db.settings.filter (fun s => s.key == k) := by
      refine List.filter_congr ?_
      intro x _
      show ((if (x.key == k) = true then { x with value := v } else x).key == k) = (x.key == k)
      by_cases hx : (x.key == k) = true
      · rw [if_pos hx]
      · rw [if_neg hx]
    rw [hfc]
    have hmemk : k ∈ db.settings.map (fun s => s.key) := by
      obtain ⟨s0, hs0, hp⟩ := List.any_eq_true.mp hc
      exact List.mem_map.mpr ⟨s0, hs0, by simpa using hp⟩
    have hcount : (db.settings.map (fun s => s.key)).count k = 1 :=
      List.count_eq_one_of_mem hnd hmemk
    rw [← List.countP_eq_length_filter]
    calc List.countP (fun s => s.key == k) db.settings
        = List.countP (fun x => x == k) (db.settings.map (fun s => s.key)) := by
          rw [List.countP_map]
          rfl
      _ = 1 := hcount
  · rw [if_neg hc]
    dsimp only
    rw [List.filter_append]
    have h1 : db.settings.filter (fun s => s.key == k) = [] :=
      List.filter_eq_nil_iff.mpr (fun a ha => by
        simp only [Bool.not_eq_true] at hc
        exact List.any_eq_false.mp hc a ha)
    rw [h1]
    simp

theorem setSetting_keys_nodup (db : DB) (k v : String)
    (hnd : (db.settings.map (fun s => s.key)).Nodup) :
    ((setSetting db k v).settings.map (fun s => s.key)).Nodup := by
  unfold setSetting
  by_cases hc : db.settings.any (fun s => s.key == k) = true
  · rw [if_pos hc]
    dsimp only
    rw [List.map_map]
    have heq : ((fun s : Setting => s.key) ∘
        (fun s => if s.key == k then { s with value := v } else s))
        = fun s : Setting => s.key := by
      funext s
      simp only [Function.comp_apply]
      by_cases hs : (s.key == k) = true
      · rw [if_pos hs]
      · rw [if_neg hs]
    rw [heq]
    exact hnd
  · rw [if_neg hc]
    dsimp only
    rw [List.map_append]
    refine List.nodup_append.mpr ⟨hnd, by simp, ?_⟩
    intro a ha hb
    simp only [List.map_cons, List.map_nil, List.mem_singleton] at hb
    subst hb
    obtain ⟨s, hs, hk⟩ := List.mem_map.mp ha
    simp only [Bool.not_eq_true] at hc
    have := List.any_eq_false.mp hc s hs
    simp [hk] at this

/-- C7: the settings upsert is last-write-wins — after
`setSetting k v1; setSetting k v2` exactly one row for `k` remains
and `getSetting k` yields `v2`. -/
theorem setSetting_last_write_wins (db : DB) (k v1 v2 : String)
    (hnd : (db.settings.map (fun s => s.key)).Nodup) :
    ((setSetting (setSetting db k v1) k v2).settings.filter
      (fun s => s.key == k)).length = 1 ∧
    getSetting (setSetting (setSetting db k v1) k v2) k = some v2 :=
  ⟨setSetting_count_one _ k v2 (setSetting_keys_nodup db k v1 hnd),
   getSetting_set_self _ k v2⟩

theorem setSetting_last_write_wins_witness :
    ((setSetting (setSetting dbEmpty "theme" "light") "theme" "dark").settings.filter
      (fun s => s.key == "theme")).length = 1 ∧
    getSetting (setSetting (setSetting dbEmpty "theme" "light") "theme" "dark") "theme"
      = some "dark" :=
  setSetting_last_write_wins dbEmpty "theme" "light" "dark" (by simp [dbEmpty])

/-! ## Initialization lemmas -/

theorem mem_foldl_createIfNotExists (names objs : List String) (n : String)
    (h : n ∈ objs ∨ n ∈ names) : n ∈ names.foldl createIfNotExists objs := by
  induction names generalizing objs with
  | nil =>
    rcases h with h | h
    · simpa using h
    · cases h
  | cons m names ih =>
    rw [List.foldl_cons]
    apply ih
    rcases h with h | h
    · left
      unfold createIfNotExists
      split
      · exact h
      · exact List.mem_append_left _ h
    · rcases List.mem_cons.mp h with rfl | h
      · left
        unfold createIfNotExists
        split
        next hcont => simpa using hcont
        next => exact List.mem_append_right _ (List.mem_singleton.mpr rfl)
      · right
        exact h

theorem nodup_createIfNotExists (objs : List String) (m : String) (h : objs.Nodup) :
    (createIfNotExists objs m).Nodup := by
  unfold createIfNotExists
  split
  · exact h
  next hcont =>
    refine List.nodup_append.mpr ⟨h, List.nodup_singleton m, ?_⟩
    intro a ha hb
    rw [List.mem_singleton] at hb
    subst hb
    exact hcont (by simpa using ha)

theorem nodup_foldl_createIfNotExists (names objs : List String) (h : objs.Nodup) :
    (names.foldl createIfNotExists objs).Nodup := by
  induction names generalizing objs with
  | nil => simpa using h
  | cons m names ih =>
    rw [List.foldl_cons]
    exact ih _ (nodup_createIfNotExists _ _ h)

theorem isInit_after_init (db : DB) :
    isDatabaseInitialized (initializeDatabase db) = true := by
  unfold initializeDatabase
  split
  next hinit => exact hinit
  next =>
    unfold isDatabaseInitialized initializeDefaultSettings createTables
    dsimp only
    have : "folders" ∈ schemaTableNames.foldl createIfNotExists db.schemaTables :=
      mem_foldl_createIfNotExists _ _ _ (Or.inr (by simp [schemaTableNames]))
    simpa using this

theorem initializeDatabase_of_init (db : DB) (h : isDatabaseInitialized db = true) :
    initializeDatabase db = db := by
  unfold initializeDatabase
  rw [if_pos h]

theorem init_init (db : DB) :
    initializeDatabase (initializeDatabase db) = initializeDatabase db :=
  initializeDatabase_of_init _ (isInit_after_init db)

theorem initIter_succ_eq (n : Nat) (db : DB) :
    initIter (n + 1) db = initializeDatabase db := by
  induction n generalizing db with
  | zero => rfl
  | succ n ih =>
    show initIter (n + 1) (initializeDatabase db) = initializeDatabase db
    rw [ih (initializeDatabase db), init_init]

theorem find?_insertOrIgnore (l : List Setting) (kv : String × String) (k : String)
    (s0 : Setting) (h : l.find? (fun s => s.key == k) = some s0) :
    (insertOrIgnoreSetting l kv).find? (fun s => s.key == k) = some s0 := by
  unfold insertOrIgnoreSetting
  split
  · exact h
  · rw [List.find?_append, h]
    rfl

theorem find?_foldl_insertOrIgnore (kvs : List (String × String)) (l : List Setting)
    (k : String) (s0 : Setting) (h : l.find? (fun s => s.key == k) = some s0) :
    (kvs.foldl insertOrIgnoreSetting l).find? (fun s => s.key == k) = some s0 := by
  induction kvs generalizing l with
  | nil => simpa using h
  | cons kv kvs ih =>
    rw [List.foldl_cons]
    exact ih _ (find?_insertOrIgnore _ _ _ _ h)

theorem insertOrIgnore_keys_nodup (l : List Setting) (kv : String × String)
    (h : (l.map (fun s => s.key)).Nodup) :
    ((insertOrIgnoreSetting l kv).map (fun s => s.key)).Nodup := by
  unfold insertOrIgnoreSetting
  split
  · exact h
  next hc =>
    rw [List.map_append]
    refine List.nodup_append.mpr ⟨h, by simp, ?_⟩
    intro a ha hb
    simp only [List.map_cons, List.map_nil, List.mem_singleton] at hb
    subst hb
    obtain ⟨s, hs, hk⟩ := List.mem_map.mp ha
    exact hc (List.any_eq_true.mpr ⟨s, hs, by simp [hk]⟩)

theorem foldl_insertOrIgnore_keys_nodup (kvs : List (String × String)) (l : List Setting)
    (h : (l.map (fun s => s.key)).Nodup) :
    ((kvs.foldl insertOrIgnoreSetting l).map (fun s => s.key)).Nodup := by
  induction kvs generalizing l with
  | nil => simpa using h
  | cons kv kvs ih =>
    rw [List.foldl_cons]
    exact ih _ (insertOrIgnore_keys_nodup _ _ h)

theorem getSetting_init_preserved (db : DB) (k v : String)
    (h : getSetting db k = some v) :
    getSetting (initializeDatabase db) k = some v := by
  unfold initializeDatabase
  split
  · exact h
  · unfold getSetting at h ⊢
    obtain ⟨s0, hs0, hv⟩ : ∃ s0, db.settings.find? (fun s => s.key == k) = some s0 ∧
        s0.value = v := by
      cases hf : db.settings.find? (fun s => s.key == k) with
      | none => rw [hf] at h; cases h
      | some s0 =>
        rw [hf] at h
        exact ⟨s0, rfl, by simpa using h⟩
    unfold initializeDefaultSettings createTables
    dsimp only
    rw [find?_foldl_insertOrIgnore defaultSettings db.settings k s0 hs0]
    simp [hv]

/-- C6: initializing N ≥ 1 times equals initializing once, the
initialization introduces no duplicate tables, indexes or setting
rows, and a setting value written before a further initialization is
still read back afterwards. -/
theorem initializeDatabase_idempotent (db : DB) (N : Nat) (hN : 1 ≤ N) :
    initIter N db = initializeDatabase db ∧
    (db.schemaTables.Nodup → (initializeDatabase db).schemaTables.Nodup) ∧
    (db.schemaIndexes.Nodup → (initializeDatabase db).schemaIndexes.Nodup) ∧
    ((db.settings.map (fun s => s.key)).Nodup →
      ((initializeDatabase db).settings.map (fun s => s.key)).Nodup) ∧
    (∀ k v, getSetting (initializeDatabase (setSetting db k v)) k = some v) := by
  obtain ⟨n, rfl⟩ : ∃ n, N = n + 1 := ⟨N - 1, (Nat.succ_pred_eq_of_pos hN).symm⟩
  refine ⟨initIter_succ_eq n db, ?_, ?_, ?_, ?_⟩
  · intro h
    unfold initializeDatabase
    split
    · exact h
    · unfold initializeDefaultSettings createTables
      dsimp only
      exact nodup_foldl_createIfNotExists _ _ h
  · intro h
    unfold initializeDatabase
    split
    · exact h
    · unfold initializeDefaultSettings createTables
      dsimp only
      exact nodup_foldl_createIfNotExists _ _ h
  · intro h
    unfold initializeDatabase
    split
    · exact h
    · unfold initializeDefaultSettings createTables
      dsimp only
      exact foldl_insertOrIgnore_keys_nodup _ _ h
  · intro k v
    exact getSetting_init_preserved _ k v (getSetting_set_self db k v)

theorem initializeDatabase_idempotent_witness :
    initIter 1 dbEmpty = initializeDatabase dbEmpty :=
  (initializeDatabase_idempotent dbEmpty 1 (Nat.le_refl 1)).1

/-! ## LIKE-matching lemmas -/

theorem likeM_pct (ps t : List Char) :
    likeM ('%' :: ps) t = likeStar (likeM ps) t := by
  simp [likeM]

theorem likeStar_eq_true_iff (f : List Char → Bool) (t : List Char) :
    likeStar f t = true ↔ ∃ a b, t = a ++ b ∧ f b = true := by
  induction t with
  | nil =>
    constructor
    · intro h
      exact ⟨[], [], rfl, h⟩
    · rintro ⟨a, b, hab, hb⟩
      obtain ⟨rfl, rfl⟩ := List.append_eq_nil.mp hab.symm
      exact hb
  | cons c ts ih =>
    rw [show likeStar f (c :: ts) = (f (c :: ts) || likeStar f ts) from rfl, Bool.or_eq_true]
    constructor
    · rintro (h | h)
      · exact ⟨[], c :: ts, rfl, h⟩
      · obtain ⟨a, b, hab, hb⟩ := ih.mp h
        exact ⟨c :: a, b, by rw [List.cons_append, hab], hb⟩
    · rintro ⟨a, b, hab, hb⟩
      cases a with
      | nil =>
        left
        rw [List.nil_append] at hab
        rw [← hab] at hb
        exact hb
      | cons x xs =>
        right
        rw [List.cons_append] at hab
        injection hab with h1 h2
        exact ih.mpr ⟨xs, b, h2, hb⟩

theorem likeM_one_pct (t : List Char) : likeM ['%'] t = true := by
  rw [likeM_pct]
  induction t with
  | nil => rfl
  | cons c ts ih =>
    rw [show likeStar (likeM []) (c :: ts) = (likeM [] (c :: ts) || likeStar (likeM []) ts)
      from rfl]
    rw [ih]
    simp

theorem likeM_lit_pct (q : List Char) (hq : ∀ c ∈ q, c ≠ '%' ∧ c ≠ '_') (t : List Char) :
    likeM (q ++ ['%']) t = true ↔
      ∃ b, t.map asciiLower = q.map asciiLower ++ b := by
  induction q generalizing t with
  | nil =>
    simp only [List.nil_append, List.map_nil]
    constructor
    · intro _
      exact ⟨t.map asciiLower, by simp⟩
    · intro _
      exact likeM_one_pct t
  | cons c q ih =>
    have hc := hq c (List.mem_cons_self c q)
    have hq' : ∀ x ∈ q, x ≠ '%' ∧ x ≠ '_' := fun x hx => hq x (List.mem_cons_of_mem c hx)
    rw [List.cons_append]
    cases t with
    | nil =>
      rw [show likeM (c :: (q ++ ['%'])) [] = false by simp [likeM, hc.1]]
      simp
    | cons d ts =>
      rw [show likeM (c :: (q ++ ['%'])) (d :: ts)
          = (asciiLower c == asciiLower d && likeM (q ++ ['%']) ts) by
        simp [likeM, hc.1, hc.2]]
      rw [Bool.and_eq_true, beq_iff_eq]
      rw [ih hq']
      simp only [List.map_cons]
      constructor
      · rintro ⟨h1, b, hb⟩
        exact ⟨b, by rw [List.cons_append, hb, h1]⟩
      · rintro ⟨b, hb⟩
        rw [List.cons_append] at hb
        injection hb with h1 h2
        exact ⟨h1.symm, b, h2⟩

theorem sqlLike_pattern_iff (q s : String) (hq : wildcardFree q) :
    sqlLike ("%" ++ q ++ "%") s = true ↔ ciContains q s := by
  have hq' : ∀ c ∈ q.data, c ≠ '%' ∧ c ≠ '_' := hq
  unfold sqlLike ciContains
  have hdata : ("%" ++ q ++ "%").data = '%' :: (q.data ++ ['%']) := by
    rw [String.data_append, String.data_append]
    rfl
  rw [hdata, likeM_pct, likeStar_eq_true_iff]
  constructor
  · rintro ⟨a, b, hab, hb⟩
    obtain ⟨b2, hb2⟩ := (likeM_lit_pct q.data hq' b).mp hb
    exact ⟨a.map asciiLower, b2, by rw [hab, List.map_append, hb2, List.append_assoc]⟩
  · rintro ⟨a, b, heq⟩
    rw [List.append_assoc] at heq
    obtain ⟨u, w, huw, hu, hw⟩ := List.append_eq_map_iff.mp heq.symm
    exact ⟨u, w, huw, (likeM_lit_pct q.data hq' w).mpr ⟨b, hw⟩⟩

theorem listPrefixB_iff (q t : List Char) :
    listPrefixB q t = true ↔ ∃ r, t = q ++ r := by
  induction q generalizing t with
  | nil =>
    rw [show listPrefixB [] t = true from rfl]
    simp
  | cons c q ih =>
    cases t with
    | nil =>
      rw [show listPrefixB (c :: q) [] = false from rfl]
      simp
    | cons d ts =>
      rw [show listPrefixB (c :: q) (d :: ts) = (c == d && listPrefixB q ts) from rfl]
      rw [Bool.and_eq_true, beq_iff_eq, ih]
      constructor
      · rintro ⟨rfl, r, rfl⟩
        exact ⟨r, rfl⟩
      · rintro ⟨r, h⟩
        rw [List.cons_append] at h
        injection h with h1 h2
        exact ⟨h1.symm, r, h2⟩

theorem listInfixB_iff (q t : List Char) :
    listInfixB q t = true ↔ ∃ a b, t = a ++ q ++ b := by
  induction t with
  | nil =>
    rw [show listInfixB q [] = listPrefixB q [] from rfl, listPrefixB_iff]
    constructor
    · rintro ⟨r, hr⟩
      exact ⟨[], r, by simpa using hr⟩
    · rintro ⟨a, b, h⟩
      have h' := h.symm
      simp only [List.append_eq_nil] at h'
      obtain ⟨⟨-, hqn⟩, -⟩ := h'
      exact ⟨[], by rw [hqn]; rfl⟩
  | cons c ts ih =>
    rw [show listInfixB q (c :: ts) = (listPrefixB q (c :: ts) || listInfixB q ts) from rfl]
    rw [Bool.or_eq_true, listPrefixB_iff, ih]
    constructor
    · rintro (⟨r, hr⟩ | ⟨a, b, h⟩)
      · exact ⟨[], r, by simpa using hr⟩
      · exact ⟨c :: a, b, by rw [List.cons_append, List.cons_append, ← h]⟩
    · rintro ⟨a, b, h⟩
      cases a with
      | nil =>
        left
        exact ⟨b, by simpa using h⟩
      | cons x xs =>
        right
        rw [List.cons_append, List.cons_append] at h
        injection h with h1 h2
        exact ⟨xs, b, h2⟩

theorem ciContains_iff_listInfixB (q s : String) :
    ciContains q s ↔ listInfixB (q.data.map asciiLower) (s.data.map asciiLower) = true := by
  rw [listInfixB_iff]
  exact Iff.rfl

/-- Store with a single note whose title is "a" and whose content is
empty; neither field has "_" as a substring. -/
def dbC3 : DB :=
  { schemaTables := [], schemaIndexes := []
    folders := [⟨1, "f", none, "t1", "t1"⟩]
    notes := [⟨1, "a", "", 1, "t1", "t1"⟩]
    stickyNotes := [], settings := [], nextFolderId := 2, nextNoteId := 2, nextStickyId := 1 }

/-- C3 (counterexample): `searchNotes "_"` returns a note although
"_" is a substring of neither its title nor its content — the
underscore in the query acts as a LIKE wildcard, so the claim is
false for queries containing `%` or `_`. -/
theorem searchNotes_wildcard_counterexample :
    (⟨1, "a", "", 1, "t1", "t1"⟩ : Note) ∈ searchNotes dbC3 "_" ∧
    ¬ ciContains "_" "a" ∧ ¬ ciContains "_" "" := by
  refine ⟨?_, ?_, ?_⟩
  · decide
  · rw [ciContains_iff_listInfixB]
    decide
  · rw [ciContains_iff_listInfixB]
    decide

/-- C3 (amended): for a query free of the LIKE wildcard characters
`%` and `_`, `searchNotes` returns exactly the notes whose title or
content contains the query as an ASCII-case-insensitive substring,
each such note exactly once. -/
theorem searchNotes_substring_exact (db : DB) (q : String)
    (hq : wildcardFree q) (hnd : db.notes.Nodup) (n : Note) :
    (n ∈ searchNotes db q ↔
      n ∈ db.notes ∧ (ciContains q n.title ∨ ciContains q n.content)) ∧
    (n ∈ searchNotes db q → (searchNotes db q).count n = 1) := by
  have hmem : n ∈ searchNotes db q ↔
      n ∈ db.notes ∧ (ciContains q n.title ∨ ciContains q n.content) := by
    simp only [searchNotes]
    rw [(List.perm_insertionSort noteModGE _).mem_iff]
    rw [List.mem_filter]
    constructor
    · rintro ⟨h1, h2⟩
      refine ⟨h1, ?_⟩
      rw [Bool.or_eq_true] at h2
      rcases h2 with h2 | h2
      · exact Or.inl ((sqlLike_pattern_iff q n.title hq).mp h2)
      · exact Or.inr ((sqlLike_pattern_iff q n.content hq).mp h2)
    · rintro ⟨h1, h2⟩
      refine ⟨h1, ?_⟩
      rw [Bool.or_eq_true]
      rcases h2 with h2 | h2
      · exact Or.inl ((sqlLike_pattern_iff q n.title hq).mpr h2)
      · exact Or.inr ((sqlLike_pattern_iff q n.content hq).mpr h2)
  refine ⟨hmem, ?_⟩
  intro hn
  simp only [searchNotes] at hn ⊢
  rw [(List.perm_insertionSort noteModGE _).count_eq]
  rw [(List.perm_insertionSort noteModGE _).mem_iff] at hn
  exact List.count_eq_one_of_mem (hnd.filter _) hn

theorem searchNotes_substring_exact_witness :
    ((⟨1, "a", "", 1, "t1", "t1"⟩ : Note) ∈ searchNotes dbC3 "a" ↔
      (⟨1, "a", "", 1, "t1", "t1"⟩ : Note) ∈ dbC3.notes ∧
      (ciContains "a" (Note.mk 1 "a" "" 1 "t1" "t1").title ∨
        ciContains "a" (Note.mk 1 "a" "" 1 "t1" "t1").content)) ∧
    ((⟨1, "a", "", 1, "t1", "t1"⟩ : Note) ∈ searchNotes dbC3 "a" →
      (searchNotes dbC3 "a").count ⟨1, "a", "", 1, "t1", "t1"⟩ = 1) :=
  searchNotes_substring_exact dbC3 "a" (by unfold wildcardFree; decide) (by decide)
    ⟨1, "a", "", 1, "t1", "t1"⟩

/-- C10: the empty query builds the LIKE pattern "%%", which matches
every title, so `searchNotes ""` returns every note in the store,
ordered by modified timestamp descending. -/
theorem searchNotes_empty_query (db : DB) :
    (searchNotes db "").Perm db.notes ∧
    (searchNotes db "").Pairwise noteModGE := by
  have hfilter : db.notes.filter (fun n =>
      sqlLike ("%" ++ "" ++ "%") n.title || sqlLike ("%" ++ "" ++ "%") n.content)
      = db.notes := by
    refine List.filter_eq_self.mpr (fun n _ => ?_)
    have ht : sqlLike ("%" ++ "" ++ "%") n.title = true := by
      unfold sqlLike
      rw [show ("%" ++ "" ++ "%").data = '%' :: ['%'] from rfl]
      rw [likeM_pct, likeStar_eq_true_iff]
      exact ⟨[], n.title.data, rfl, likeM_one_pct _⟩
    rw [ht]
    rfl
  constructor
  · simp only [searchNotes]
    rw [hfilter]
    exact List.perm_insertionSort _ _
  · simp only [searchNotes]
    exact List.sorted_insertionSort noteModGE _

end Cerebra
